import Mathlib

/-
Verification of the rank-indexed splay-tree container in
src/src/tree_array.rs (espadrine/tree-array).

The Rust code is embedded shallowly:
- `Option<Box<Node<V>>>` becomes the inductive `TreeArray V` with `nil`
  for `None`; a present node carries its value, its stored `size: usize`
  field, and the two child slots.
- usize arithmetic is wrapping arithmetic mod 2^64 (release-mode Rust);
  every addition and subtraction performed on `size` fields or on index
  computations in the source is mapped to `wadd` / `wsub` below.  (A debug
  build would panic where `wsub` wraps.)
- The imperative splay loop is split here into `splayStep`, one execution
  of the `loop { .. }` body ending in `break` (`SplayStep.brk`) or in
  falling through to the next iteration (`SplayStep.cont`), and the driver
  `splayLoop` that iterates it.  The three-way `index.cmp(&node_idx)`
  branch is rendered as two nested ifs selecting the same arms.
- The loop threads two growing chains through `&mut` holes.  Here the
  chains are lists of hole-carrying nodes in most-recently-appended-first
  order, spliced back by a fold once the loop stops, mirroring the final
  `mem::swap` pair and the `node.left = newright; node.right = newleft`
  assignments.
-/

/-- Modulus of usize on a 64-bit target. -/
def usizeMod : Nat := 2 ^ 64

/-- Wrapping usize addition. -/
def wadd (a b : Nat) : Nat := (a + b) % usizeMod

/-- Wrapping usize subtraction (release-mode `a - b` on usize). -/
def wsub (a b : Nat) : Nat := (a + usizeMod - b % usizeMod) % usizeMod

/-- A `TreeArray<V>` is its optional root node; subtrees have the same type.
`node value size left right` is `Some(Box(Node { value, size, left, right }))`
and `nil` is `None`. -/
inductive TreeArray (V : Type) where
  | nil : TreeArray V
  | node (value : V) (size : Nat) (left right : TreeArray V) : TreeArray V
deriving DecidableEq

namespace TreeArray

variable {V : Type}

/-- Stored size of an optional subtree: `match t { Some(n) => n.size, None => 0 }`. -/
def sz : TreeArray V → Nat
  | nil => 0
  | node _ s _ _ => s

/-- True number of nodes.  Not stored anywhere in the Rust code; used here to
compare against the (possibly corrupted) stored sizes and as a measure. -/
def count : TreeArray V → Nat
  | nil => 0
  | node _ _ l r => 1 + count l + count r

/-- In-order sequence of values: the logical sequence the container represents
(matches the left-value-right layout of `Node::to_str`). -/
def toList : TreeArray V → List V
  | nil => []
  | node v _ l r => toList l ++ v :: toList r

/-- `Node::rel_index`: stored size of the left child. -/
def relIndex : TreeArray V → Nat
  | nil => 0
  | node _ _ l _ => sz l

/-- Value at the root, if any. -/
def rootValue : TreeArray V → Option V
  | nil => none
  | node v _ _ _ => some v

/-- In-order position of the root among the values of the whole tree. -/
def rootPos : TreeArray V → Nat
  | nil => 0
  | node _ _ l _ => (toList l).length

/-- Outcome of executing the body of the splay loop once: `brk` is a `break`
out of the loop, `cont` falls through to the next iteration.  Both carry the
current node and the two accumulated chains. -/
inductive SplayStep (V : Type) where
  | brk (t : TreeArray V) (rAcc lAcc : List (V × Nat × TreeArray V)) : SplayStep V
  | cont (t : TreeArray V) (rAcc lAcc : List (V × Nat × TreeArray V)) : SplayStep V

/-- One execution of the body of the `loop` in `fn splay` (tree_array.rs lines
174 to 262).  `node_idx` is computed once before the loop in the source and
never updated inside it, so it is a fixed parameter.  `rAcc` holds the nodes
appended through the `r` hole pointer (the `newleft` chain, `Less` arm, hole
in the `left` slot, item `(value, size, right-subtree)`), `lAcc` those
appended through `l` (the `newright` chain, `Greater` arm, hole in the `right`
slot), both most-recently-appended first.  `Node::remove_left`,
`Node::remove_right` and `Node::rel_index` are inlined where the source calls
them; the source never runs the body with an absent node. -/
def splayStep (index node_idx : Nat) (t : TreeArray V)
    (rAcc lAcc : List (V × Nat × TreeArray V)) : SplayStep V :=
  match t with
  | nil => .brk nil rAcc lAcc
  | node v s l r =>
    if index = node_idx then .brk (node v s l r) rAcc lAcc
    else if index < node_idx then
      match l with
      | nil => .brk (node v s nil r) rAcc lAcc
      | node lv ls ll lr =>
        if index < wsub (wsub node_idx 1) (sz lr) then
          match ll with
          | nil =>
            .brk (node lv (wadd (wadd (wsub s ls) (sz r)) 1) nil
              (node v (wadd (wsub s ls) (sz r)) lr r)) rAcc lAcc
          | node llv lls lll llr =>
            .cont (node llv lls lll llr)
              ((lv, wadd (wadd (wsub s ls) (sz r)) 1,
                node v (wadd (wsub s ls) (sz r)) lr r) :: rAcc) lAcc
        else
          .cont (node lv ls ll lr) ((v, wsub s ls, r) :: rAcc) lAcc
    else
      match r with
      | nil => .brk (node v s l nil) rAcc lAcc
      | node rv rs rl rr =>
        if wadd (wadd node_idx 1) (sz rl) < index then
          match rr with
          | nil =>
            .brk (node rv (wadd (wadd (wsub s rs) (sz l)) 1)
              (node v (wadd (wsub s rs) (sz l)) l rl) nil) rAcc lAcc
          | node rrv rrs rrl rrr =>
            .cont (node rrv rrs rrl rrr) rAcc
              ((rv, wadd (wadd (wsub s rs) (sz l)) 1,
                node v (wadd (wsub s rs) (sz l)) l rl) :: lAcc)
        else
          .cont (node rv rs rl rr) rAcc ((v, wsub s rs, l) :: lAcc)

/-- The `loop { .. }` of `fn splay`: iterate the body until it breaks.  The
iteration is bounded by an explicit fuel so that the definition stays a plain
structural recursion; `none` means the fuel ran out before the loop broke.
Each fall-through of the body moves to a proper subtree of the current node
(`splayStep_cont_count` below), so `count t` iterations always suffice: the
fuel-sufficiency theorem for C8 shows the `none` outcome is unreachable for
the fuel `splay` passes, and that any larger fuel gives the same result, so
the bound does not restrict the modelled loop. -/
def splayLoop (index node_idx : Nat) :
    Nat → TreeArray V → List (V × Nat × TreeArray V) → List (V × Nat × TreeArray V) →
    Option (TreeArray V × List (V × Nat × TreeArray V) × List (V × Nat × TreeArray V))
  | 0, _, _, _ => none
  | fuel + 1, t, rAcc, lAcc =>
    match splayStep index node_idx t rAcc lAcc with
    | .brk f rA lA => some (f, rA, lA)
    | .cont t2 rA lA => splayLoop index node_idx fuel t2 rA lA

/-- Splice the `newright` chain (holes in the `right` slots) around the final
content of its last hole. -/
def buildNewright (items : List (V × Nat × TreeArray V)) (hole : TreeArray V) : TreeArray V :=
  items.foldl (fun acc x => node x.1 x.2.1 x.2.2 acc) hole

/-- Splice the `newleft` chain (holes in the `left` slots) around the final
content of its last hole. -/
def buildNewleft (items : List (V × Nat × TreeArray V)) (hole : TreeArray V) : TreeArray V :=
  items.foldl (fun acc x => node x.1 x.2.1 acc x.2.2) hole

/-- One child update of the size recomputation at the end of `fn splay`
(lines 271 to 292): the stored size of a present child is assigned the sum of
the stored sizes of its own two children.  This is the code as written; it has
no `1 +` for the child node itself. -/
def fixChild : TreeArray V → TreeArray V
  | nil => nil
  | node v _ cl cr => node v (wadd (sz cr) (sz cl)) cl cr

/-- The whole size recomputation block at the end of `fn splay` (lines 270 to
293): fix both children, then set the root size to 1 plus the two results. -/
def repair : TreeArray V → TreeArray V
  | nil => nil
  | node v _ l r =>
    node v (wadd (wadd 1 (sz (fixChild r))) (sz (fixChild l))) (fixChild l) (fixChild r)

/-- `fn splay(index, node)`: run the loop from the root, splice the two chains
onto the final node (`node.left = newright; node.right = newleft`, each chain
having absorbed the corresponding child of the final node through the closing
`mem::swap` pair), then recompute the top three sizes.  The source requires a
present node (`&mut Box<Node<V>>`); on `nil` this function is never invoked by
`get` / `insert`, and the catch-all arms below are proved unreachable. -/
def splay (index : Nat) (t : TreeArray V) : TreeArray V :=
  match t with
  | nil => nil
  | node v s l r =>
    match splayLoop index (sz l) (count (node v s l r) + 1) (node v s l r) [] [] with
    | none => nil
    | some (nil, _, _) => nil
    | some (node fv fs fl fr, rA, lA) =>
      repair (node fv fs (buildNewright lA fl) (buildNewleft rA fr))

/-- `TreeArray::new`. -/
def new : TreeArray V := nil

/-- `TreeArray::len`. -/
def len : TreeArray V → Nat
  | nil => 0
  | node _ s _ _ => s

/-- `TreeArray::get`, returning the looked-up value and the mutated container
(the source takes `&mut self` and splays as a side effect). -/
def get (t : TreeArray V) (index : Nat) : Option V × TreeArray V :=
  match t with
  | nil => (none, nil)
  | node v s l r =>
    match splay index (node v s l r) with
    | nil => (none, nil)
    | node v' s' l' r' =>
      (if index = sz l' then some v' else none, node v' s' l' r')

/-- `TreeArray::insert`: on a present root, splay the requested index, then
hang the old root to the right (index at most the new rel_index) or to the
left (index greater) of a fresh node built by `Node::new`. -/
def insert (t : TreeArray V) (index : Nat) (value : V) : TreeArray V :=
  match t with
  | nil => node value 1 nil nil
  | node v s l r =>
    match splay index (node v s l r) with
    | nil => node value 1 nil nil
    | node v' s' l' r' =>
      if index ≤ sz l' then
        node value (wadd (wadd 1 (sz l')) (wsub s' (sz l'))) l'
          (node v' (wsub s' (sz l')) nil r')
      else
        node value (wadd (wadd 1 (sz r')) (wsub s' (sz r')))
          (node v' (wsub s' (sz r')) l' nil) r'

/-- Decidable check of the documented size invariant, spec section 3:
`size == 1 + size(left, or 0) + size(right, or 0)` at every present node.
`Node::new` establishes exactly this shape when building a node. -/
def sizeOk : TreeArray V → Bool
  | nil => true
  | node _ s l r => (s == 1 + sz l + sz r) && sizeOk l && sizeOk r

/-- In-order value sequence contributed by a newright chain, hole content
excluded: first-appended node first, each item listing its kept left subtree
then its own value. -/
def chainL : List (V × Nat × TreeArray V) → List V
  | [] => []
  | (v, _, lt) :: rest => chainL rest ++ toList lt ++ [v]

/-- In-order value sequence contributed by a newleft chain, hole content
excluded: last-appended node first, each item listing its own value then its
kept right subtree. -/
def chainR : List (V × Nat × TreeArray V) → List V
  | [] => []
  | (v, _, rt) :: rest => v :: (toList rt ++ chainR rest)

/-- Full in-order sequence distributed over the two chains and the current
node of a loop state. -/
def stateList (t : TreeArray V) (rAcc lAcc : List (V × Nat × TreeArray V)) : List V :=
  chainL lAcc ++ (toList t ++ chainR rAcc)

end TreeArray

open TreeArray

/-- Modelled from the spec: the reference positional insertion on a plain
sequence, spec section 8 (elements at position at least `r` shift right by
one, elements before `r` unchanged). -/
def seqInsert (r : Nat) (v : α) (s : List α) : List α :=
  s.take r ++ v :: s.drop r

/-- Container after insert(0,1); insert(1,2) on a fresh container, the build
of spec section 8 scenario 3; both ranks are within `[0, length()]`. -/
def pair12 : TreeArray Nat := insert (insert new 0 1) 1 2

/-- Container after insert(0,1); insert(1,2); insert(2,3); every rank is
within `[0, length()]` at the time it is used. -/
def triple123 : TreeArray Nat := insert pair12 2 3

/-- Container after five inserts at rank 0 (rank 0 is always in range). -/
def fiveFront : TreeArray Nat :=
  insert (insert (insert (insert (insert new 0 0) 0 1) 0 2) 0 3) 0 4

/-- Container after the five front inserts followed by insert(2,5) and
insert(2,6); the reported length at those two steps is 2 and 2, so every rank
is within `[0, length()]` at the time it is used. -/
def sevenMix : TreeArray Nat := insert (insert fiveFront 2 5) 2 6

/-- Container after insert(0,0); insert(0,1); insert(0,2); get(0). -/
def threeFrontGot : TreeArray Nat :=
  (get (insert (insert (insert new 0 0) 0 1) 0 2) 0).2

namespace TreeArray

variable {V : Type}

lemma splayStep_cont_count {index node_idx : Nat} {t t2 : TreeArray V}
    {rAcc lAcc rA lA : List (V × Nat × TreeArray V)}
    (h : splayStep index node_idx t rAcc lAcc = .cont t2 rA lA) :
    count t2 < count t := by
  unfold splayStep at h
  repeat' split at h
  all_goals
    first
      | (injection h
         done)
      | (injection h with h1 h2 h3
         subst h1
         simp only [count]
         omega)

lemma splayStep_brk_stateList {index node_idx : Nat} {t f : TreeArray V}
    {rAcc lAcc rA lA : List (V × Nat × TreeArray V)}
    (h : splayStep index node_idx t rAcc lAcc = .brk f rA lA) :
    stateList f rA lA = stateList t rAcc lAcc := by
  unfold splayStep at h
  repeat' split at h
  all_goals
    first
      | (injection h
         done)
      | (injection h with h1 h2 h3
         subst h1
         subst h2
         subst h3
         simp [stateList, toList, chainL, chainR])

lemma splayStep_cont_stateList {index node_idx : Nat} {t t2 : TreeArray V}
    {rAcc lAcc rA lA : List (V × Nat × TreeArray V)}
    (h : splayStep index node_idx t rAcc lAcc = .cont t2 rA lA) :
    stateList t2 rA lA = stateList t rAcc lAcc := by
  unfold splayStep at h
  repeat' split at h
  all_goals
    first
      | (injection h
         done)
      | (injection h with h1 h2 h3
         subst h1
         subst h2
         subst h3
         simp [stateList, toList, chainL, chainR])

lemma splayStep_brk_ne_nil {index node_idx : Nat} {t f : TreeArray V}
    {rAcc lAcc rA lA : List (V × Nat × TreeArray V)}
    (ht : t ≠ nil) (h : splayStep index node_idx t rAcc lAcc = .brk f rA lA) :
    f ≠ nil := by
  unfold splayStep at h
  repeat' split at h
  all_goals
    first
      | (injection h
         done)
      | (injection h with h1 h2 h3
         subst h1
         simp_all)

lemma splayStep_cont_ne_nil {index node_idx : Nat} {t t2 : TreeArray V}
    {rAcc lAcc rA lA : List (V × Nat × TreeArray V)}
    (h : splayStep index node_idx t rAcc lAcc = .cont t2 rA lA) :
    t2 ≠ nil := by
  unfold splayStep at h
  repeat' split at h
  all_goals
    first
      | (injection h
         done)
      | (injection h with h1 h2 h3
         subst h1
         simp_all)

lemma splayLoop_some_stateList (index node_idx : Nat) :
    ∀ (fuel : Nat) (t : TreeArray V) (rAcc lAcc : List (V × Nat × TreeArray V))
      (f : TreeArray V) (rA lA : List (V × Nat × TreeArray V)),
      splayLoop index node_idx fuel t rAcc lAcc = some (f, rA, lA) →
      stateList f rA lA = stateList t rAcc lAcc := by
  intro fuel
  induction fuel with
  | zero =>
    intro t rAcc lAcc f rA lA h
    exact absurd h (by simp [splayLoop])
  | succ fuel ih =>
    intro t rAcc lAcc f rA lA h
    simp only [splayLoop] at h
    cases hstep : splayStep index node_idx t rAcc lAcc with
    | brk f2 rA2 lA2 =>
      simp only [hstep, Option.some.injEq, Prod.mk.injEq] at h
      obtain ⟨e1, e2, e3⟩ := h
      subst e1
      subst e2
      subst e3
      exact splayStep_brk_stateList hstep
    | cont t2 rA2 lA2 =>
      simp only [hstep] at h
      exact (ih t2 rA2 lA2 f rA lA h).trans (splayStep_cont_stateList hstep)

lemma splayLoop_some_ne_nil (index node_idx : Nat) :
    ∀ (fuel : Nat) (t : TreeArray V) (rAcc lAcc : List (V × Nat × TreeArray V))
      (f : TreeArray V) (rA lA : List (V × Nat × TreeArray V)),
      t ≠ nil →
      splayLoop index node_idx fuel t rAcc lAcc = some (f, rA, lA) →
      f ≠ nil := by
  intro fuel
  induction fuel with
  | zero =>
    intro t rAcc lAcc f rA lA ht h
    exact absurd h (by simp [splayLoop])
  | succ fuel ih =>
    intro t rAcc lAcc f rA lA ht h
    simp only [splayLoop] at h
    cases hstep : splayStep index node_idx t rAcc lAcc with
    | brk f2 rA2 lA2 =>
      simp only [hstep, Option.some.injEq, Prod.mk.injEq] at h
      obtain ⟨e1, e2, e3⟩ := h
      subst e1
      exact splayStep_brk_ne_nil ht hstep
    | cont t2 rA2 lA2 =>
      simp only [hstep] at h
      exact ih t2 rA2 lA2 f rA lA (splayStep_cont_ne_nil hstep) h

lemma splayLoop_isSome (index node_idx : Nat) :
    ∀ (fuel : Nat) (t : TreeArray V) (rAcc lAcc : List (V × Nat × TreeArray V)),
      count t < fuel →
      ∃ f rA lA, splayLoop index node_idx fuel t rAcc lAcc = some (f, rA, lA) := by
  intro fuel
  induction fuel with
  | zero =>
    intro t rAcc lAcc h
    exact absurd h (Nat.not_lt_zero _)
  | succ fuel ih =>
    intro t rAcc lAcc h
    cases hstep : splayStep index node_idx t rAcc lAcc with
    | brk f2 rA2 lA2 =>
      exact ⟨f2, rA2, lA2, by simp [splayLoop, hstep]⟩
    | cont t2 rA2 lA2 =>
      obtain ⟨f, rA, lA, hrec⟩ := ih t2 rA2 lA2
        (by have := splayStep_cont_count hstep; omega)
      exact ⟨f, rA, lA, by simp [splayLoop, hstep, hrec]⟩

/-- The fuel bound is irrelevant once it exceeds the node count: any two
sufficient fuels produce the same loop result. -/
lemma splayLoop_congr (index node_idx : Nat) :
    ∀ (fuel1 fuel2 : Nat) (t : TreeArray V) (rAcc lAcc : List (V × Nat × TreeArray V)),
      count t < fuel1 → count t < fuel2 →
      splayLoop index node_idx fuel1 t rAcc lAcc
        = splayLoop index node_idx fuel2 t rAcc lAcc := by
  intro fuel1
  induction fuel1 with
  | zero =>
    intro fuel2 t rAcc lAcc h1 h2
    exact absurd h1 (Nat.not_lt_zero _)
  | succ fuel1 ih =>
    intro fuel2 t rAcc lAcc h1 h2
    cases fuel2 with
    | zero => exact absurd h2 (Nat.not_lt_zero _)
    | succ fuel2 =>
      simp only [splayLoop]
      cases hstep : splayStep index node_idx t rAcc lAcc with
      | brk f2 rA2 lA2 => rfl
      | cont t2 rA2 lA2 =>
        have hlt := splayStep_cont_count hstep
        exact ih fuel2 t2 rA2 lA2 (by omega) (by omega)

lemma toList_fixChild (t : TreeArray V) : toList (fixChild t) = toList t := by
  cases t <;> simp [fixChild, toList]

lemma toList_repair (t : TreeArray V) : toList (repair t) = toList t := by
  cases t <;> simp [repair, toList, toList_fixChild]

lemma buildNewright_cons (v : V) (s : Nat) (lt : TreeArray V)
    (xs : List (V × Nat × TreeArray V)) (hole : TreeArray V) :
    buildNewright ((v, s, lt) :: xs) hole = buildNewright xs (node v s lt hole) := rfl

lemma buildNewleft_cons (v : V) (s : Nat) (rt : TreeArray V)
    (xs : List (V × Nat × TreeArray V)) (hole : TreeArray V) :
    buildNewleft ((v, s, rt) :: xs) hole = buildNewleft xs (node v s hole rt) := rfl

lemma toList_buildNewright (items : List (V × Nat × TreeArray V)) (hole : TreeArray V) :
    toList (buildNewright items hole) = chainL items ++ toList hole := by
  induction items generalizing hole with
  | nil => simp [buildNewright, chainL]
  | cons x xs ih =>
    obtain ⟨v, s, lt⟩ := x
    rw [buildNewright_cons, ih]
    simp [chainL, toList]

lemma toList_buildNewleft (items : List (V × Nat × TreeArray V)) (hole : TreeArray V) :
    toList (buildNewleft items hole) = toList hole ++ chainR items := by
  induction items generalizing hole with
  | nil => simp [buildNewleft, chainR]
  | cons x xs ih =>
    obtain ⟨v, s, rt⟩ := x
    rw [buildNewleft_cons, ih]
    simp [chainR, toList]

/-- Splaying never changes the represented in-order sequence, whatever the
requested index and whatever the stored sizes are: every branch of the loop
body only rearranges subtrees in an order-preserving way, and the final size
recomputation touches no value or child link. -/
lemma toList_splay (index : Nat) (t : TreeArray V) :
    toList (splay index t) = toList t := by
  cases t with
  | nil => rfl
  | node v s l r =>
    obtain ⟨f, rA, lA, hrun⟩ :=
      splayLoop_isSome index (sz l) (count (node v s l r) + 1) (node v s l r) [] []
        (Nat.lt_succ_self _)
    have hst := splayLoop_some_stateList index (sz l) (count (node v s l r) + 1)
      (node v s l r) [] [] f rA lA hrun
    have hnn := splayLoop_some_ne_nil index (sz l) (count (node v s l r) + 1)
      (node v s l r) [] [] f rA lA (by simp) hrun
    simp only [splay, hrun]
    cases f with
    | nil => exact absurd rfl hnn
    | node fv fs fl fr =>
      rw [toList_repair]
      simp only [stateList, toList, chainL, chainR, List.append_nil, List.nil_append] at hst
      simp only [toList, toList_buildNewright, toList_buildNewleft]
      simp only [List.append_assoc, List.cons_append] at hst ⊢
      simpa using hst

lemma splay_node_ne_nil (index : Nat) (v : V) (s : Nat) (l r : TreeArray V) :
    splay index (node v s l r) ≠ nil := by
  obtain ⟨f, rA, lA, hrun⟩ :=
    splayLoop_isSome index (sz l) (count (node v s l r) + 1) (node v s l r) [] []
      (Nat.lt_succ_self _)
  have hnn := splayLoop_some_ne_nil index (sz l) (count (node v s l r) + 1)
    (node v s l r) [] [] f rA lA (by simp) hrun
  simp only [splay, hrun]
  cases f with
  | nil => exact absurd rfl hnn
  | node fv fs fl fr => simp [repair]

lemma toList_get_snd (t : TreeArray V) (i : Nat) :
    toList (get t i).2 = toList t := by
  cases t with
  | nil => rfl
  | node v s l r =>
    simp only [get]
    split
    · rename_i heq
      exact absurd heq (splay_node_ne_nil i v s l r)
    · rename_i v' s' l' r' heq
      have := toList_splay i (node v s l r)
      rw [heq] at this
      exact this

/-- Inserting permutes the sequence to the old one with the new value added:
no node is lost or duplicated (although, with the corrupted sizes, the new
value can land at a position other than the requested rank). -/
lemma toList_insert_perm (t : TreeArray V) (r : Nat) (v : V) :
    List.Perm (toList (insert t r v)) (v :: toList t) := by
  cases t with
  | nil => simp [insert, toList]
  | node w s l rr =>
    simp only [insert]
    split
    · rename_i heq
      exact absurd heq (splay_node_ne_nil r w s l rr)
    · rename_i v' s' l' r' heq
      have htl : toList l' ++ v' :: toList r' = toList (node w s l rr) := by
        have := toList_splay r (node w s l rr)
        rw [heq] at this
        simpa [toList] using this
      rw [← htl]
      by_cases hle : r ≤ sz l'
      · simp only [if_pos hle, toList, List.nil_append]
        exact List.perm_middle
      · simp only [if_neg hle, toList, List.append_nil]
        have h1 : List.Perm ((toList l' ++ [v']) ++ v :: toList r')
            (v :: ((toList l' ++ [v']) ++ toList r')) := List.perm_middle
        simpa [List.append_assoc] using h1

end TreeArray

/-- C1: counterexample evaluation.  Starting from the empty container,
insert(0,1); insert(1,2) represents [1, 2] with reported length 2, so rank 1
is within `[0, length()]`; the reference positional insertion gives
seqInsert 1 3 [1, 2] = [1, 3, 2], but insert(1,3) leaves the container
representing [1, 2, 3]: the sequence-semantics law fails.  (Root cause: the
size recomputation at the end of `fn splay` omits the `1 +` for each child,
so `rel_index` reads a corrupted size; the same defect makes the repo test
`test_insert_tree_array` fail its `len() == 2` assertion.) -/
theorem insert_breaks_sequence_law :
    toList pair12 = [1, 2] ∧
    len pair12 = 2 ∧
    seqInsert 1 3 [1, 2] = [1, 3, 2] ∧
    toList (insert pair12 1 3) = [1, 2, 3] := by decide

/-- C2: counterexample evaluation.  After insert(0,1); insert(1,2); get(0)
the container still holds two nodes but the root stores size 1 and the inner
node for value 2 stores size 0, breaking `size == 1 + size(left) + size(right)`;
the repo test `test_insert_tree_array` asserts `len() == 2` at exactly this
point and fails. -/
theorem get_breaks_size_invariant :
    (get pair12 0).2 = node 1 1 nil (node 2 0 nil nil) ∧
    len ((get pair12 0).2) = 1 ∧
    count ((get pair12 0).2) = 2 ∧
    sizeOk ((get pair12 0).2) = false := by decide

/-- C3: counterexample evaluation.  After insert(0,1); insert(1,2) the
reported length is 2, so rank 1 is in range, yet get(1) returns no value
(spec section 8 scenario 3 requires Some(2)): the splay of rank 1 breaks at
the root at once, and the closing size recomputation corrupts the left child
size that `get` then compares against the requested rank. -/
theorem get_in_range_returns_none :
    len pair12 = 2 ∧
    (get pair12 1).1 = none := by decide

/-- C4: counterexample evaluation.  get(0) on the container representing
[1, 2] returns Some(1) and keeps the in-order sequence intact, but shrinks
the reported length from 2 to 1, so the logical sequence as observed through
`length()` is not preserved by a read; the repo test asserts `len() == 2`
after this very call and fails. -/
theorem get_changes_reported_length :
    len pair12 = 2 ∧
    (get pair12 0).1 = some 1 ∧
    toList ((get pair12 0).2) = toList pair12 ∧
    len ((get pair12 0).2) = 1 := by decide

/-- C5: counterexample evaluation.  The container built by insert(0,1);
insert(1,2); insert(2,3) represents [1, 2, 3] and reports length 2, so rank 1
is in range by either measure, yet after splay(1) the root is the element at
global rank 2 (value 3, with both other elements below its left child), not
the element at rank 1: the walk compares the rank against a `node_idx` that
is computed once before the loop and never recomputed, and it here breaks at
the first comparison because the stale stored size of the left child equals
the requested rank. -/
theorem splay_roots_wrong_rank :
    toList triple123 = [1, 2, 3] ∧
    len triple123 = 2 ∧
    rootValue (splay 1 triple123) = some 3 ∧
    rootPos (splay 1 triple123) = 2 ∧
    toList (splay 1 triple123) = [1, 2, 3] := by decide

/-- C6: counterexample evaluation.  After five inserts at rank 0 the
container reports length 2, yet get(2) — a rank not below the reported
length — returns Some(0) instead of None: after the splay of rank 2 the
recomputed stored size of the new left child happens to equal 2. -/
theorem get_beyond_length_returns_value :
    len fiveFront = 2 ∧
    (get fiveFront 2).1 = some 0 := by decide

/-- C7: on the empty container, insert(r, v) ignores the rank and creates the
sole root node of size 1; afterwards the length is 1, get(0) returns the
value (and leaves the singleton unchanged), and get(k) for any k at least 1
returns none. -/
theorem insert_into_empty_ok (r k : Nat) (v : V) (hk : 1 ≤ k) :
    insert (TreeArray.nil : TreeArray V) r v = node v 1 nil nil ∧
    len (insert (TreeArray.nil : TreeArray V) r v) = 1 ∧
    get (insert (TreeArray.nil : TreeArray V) r v) 0 = (some v, node v 1 nil nil) ∧
    (get (insert (TreeArray.nil : TreeArray V) r v) k).1 = none := by
  obtain ⟨j, rfl⟩ : ∃ j, k = j + 1 := ⟨k - 1, by omega⟩
  exact ⟨rfl, rfl, rfl, rfl⟩

/-- Witness for the C7 theorem at rank 5, probe rank 3, value 7. -/
theorem insert_into_empty_ok_witness :
    insert (TreeArray.nil : TreeArray Nat) 5 7 = node 7 1 nil nil ∧
    len (insert (TreeArray.nil : TreeArray Nat) 5 7) = 1 ∧
    get (insert (TreeArray.nil : TreeArray Nat) 5 7) 0 = (some 7, node 7 1 nil nil) ∧
    (get (insert (TreeArray.nil : TreeArray Nat) 5 7) 3).1 = none :=
  insert_into_empty_ok 5 3 7 (by decide)

/-- C8: the splay loop always breaks within `count t` iterations, for every
requested rank, every fixed `node_idx`, every chain state and every finite
tree: with any fuel exceeding the node count the fueled loop returns a
result, and the result does not depend on the fuel, so the unbounded
`loop { .. }` of the source terminates.  The other public operations (new,
length, get, insert) contain no other loop or recursion. -/
theorem splay_loop_terminates (index node_idx fuel : Nat) (t : TreeArray V)
    (rAcc lAcc : List (V × Nat × TreeArray V)) (hfuel : count t < fuel) :
    (splayLoop index node_idx fuel t rAcc lAcc).isSome = true ∧
    splayLoop index node_idx fuel t rAcc lAcc
      = splayLoop index node_idx (count t + 1) t rAcc lAcc := by
  obtain ⟨f, rA, lA, h⟩ := splayLoop_isSome index node_idx fuel t rAcc lAcc hfuel
  exact ⟨by simp [h],
    splayLoop_congr index node_idx fuel (count t + 1) t rAcc lAcc hfuel (Nat.lt_succ_self _)⟩

/-- Witness for the C8 theorem on a two-node tree with fuel 9. -/
theorem splay_loop_terminates_witness :
    (splayLoop 1 0 9 (node (0 : Nat) 2 nil (node 1 1 nil nil)) [] []).isSome = true ∧
    splayLoop 1 0 9 (node (0 : Nat) 2 nil (node 1 1 nil nil)) [] []
      = splayLoop 1 0 (count (node (0 : Nat) 2 nil (node 1 1 nil nil)) + 1)
          (node (0 : Nat) 2 nil (node 1 1 nil nil)) [] [] :=
  splay_loop_terminates 1 0 9 (node 0 2 nil (node 1 1 nil nil)) [] [] (by decide)

/-- C9: no operation loses or duplicates stored values: for every container,
every probed rank and every inserted rank and value, the multiset of values
after get equals the multiset before it, and the multiset after insert is
the old one with the new value added — every subtree the splay loop detaches
is reattached exactly once. -/
theorem operations_preserve_value_multiset (t : TreeArray V) (i r : Nat) (v : V) :
    ((toList (get t i).2 : Multiset V) = (toList t : Multiset V)) ∧
    ((toList (insert t r v) : Multiset V) = v ::ₘ (toList t : Multiset V)) := by
  refine ⟨by rw [toList_get_snd], ?_⟩
  have h1 : ((v :: toList t : List V) : Multiset V) = v ::ₘ (toList t : Multiset V) :=
    (Multiset.cons_coe v (toList t)).symm
  rw [← h1]
  exact Multiset.coe_eq_coe.mpr (toList_insert_perm t r v)

/-- C10: counterexample evaluation.  The container `sevenMix` (seven inserts,
each rank within `[0, length()]` at the time) represents [4, 3, 2, 1, 6, 5, 0]
and reports length 4; insert(5, 99) — rank strictly greater than the
length — places 99 before the last element instead of appending it.  At the
container `threeFrontGot` (reported length 1), insert(2, 99) yields a
container different from the one insert(length(), 99) yields, so the two
calls do not produce the same result either. -/
theorem insert_beyond_length_not_append :
    len sevenMix = 4 ∧
    toList sevenMix = [4, 3, 2, 1, 6, 5, 0] ∧
    toList (insert sevenMix 5 99) = [4, 3, 2, 1, 6, 5, 99, 0] ∧
    len threeFrontGot = 1 ∧
    insert threeFrontGot 2 99 ≠ insert threeFrontGot (len threeFrontGot) 99 := by decide

/-- C10 amended: for a non-empty container and a rank strictly greater than
the reported length, insert(r, v) does not fail and yields a container
holding exactly the previous values with v added; but it does not in general
append v as the last element, and it does not in general produce the same
container as insert(length(), v). -/
theorem insert_beyond_length_adds_value (t : TreeArray V) (r : Nat) (v : V)
    (hne : t ≠ nil) (hr : len t < r) :
    ((toList (insert t r v) : Multiset V) = v ::ₘ (toList t : Multiset V)) := by
  have h1 : ((v :: toList t : List V) : Multiset V) = v ::ₘ (toList t : Multiset V) :=
    (Multiset.cons_coe v (toList t)).symm
  rw [← h1]
  exact Multiset.coe_eq_coe.mpr (toList_insert_perm t r v)

/-- Witness for the amended C10 theorem on a singleton container, rank 5. -/
theorem insert_beyond_length_adds_value_witness :
    ((toList (insert (node (0 : Nat) 1 nil nil) 5 7) : Multiset Nat)
      = 7 ::ₘ (toList (node (0 : Nat) 1 nil nil) : Multiset Nat)) :=
  insert_beyond_length_adds_value (node 0 1 nil nil) 5 7 (by decide) (by decide)

